import Mathlib

/-!
Verification of the Market-Diagnostic-Dashboard ingestion/scoring core.

Shallow embedding of the Python sources:
  * `backend/app/services/analytics_stub.py` (z-scores, scoring, classification)
  * `backend/app/services/ingestion/etl_runner.py` (ETL pipeline, composites,
    persistence, system status aggregation)
  * `backend/app/services/alert_engine.py` (alert conditions and cooldown)

Conventions: dates are modelled as naturals (ordered day keys), numeric values
as rationals (real arithmetic where a square root is required), dictionaries as
association lists looked up with `List.lookup` (first match), database tables as
append-only lists of rows.
-/

/-! ### Statistical normalizer: `analytics_stub.map_z_to_score`

Python `int()` truncates toward zero; `ratTrunc` is that operation on `ℚ`. -/

def ratTrunc (q : ℚ) : ℤ :=
  if 0 ≤ q then ⌊q⌋ else ⌈q⌉

/-- Embedding of `map_z_to_score` (`analytics_stub.py` lines 48-63):
`z ≤ -2 → 0`, `z ≥ 2 → 100`, otherwise `int(((z + 2) / 4) * 100)`. -/
def map_z_to_score (z : ℚ) : ℤ :=
  if z ≤ -2 then 0
  else if 2 ≤ z then 100
  else ratTrunc (((z + 2) / 4) * 100)

/-! ### Derived metric: rate of change for the DFF indicator

Embedding of `etl_runner.py` lines 460-469: the loop starts at index 1, so the
first point is dropped and the output is one shorter than the input. -/

/-- `roc_series`: differences of consecutive points, first point dropped. -/
def dffRoc (raw : List ℚ) : List ℚ :=
  (raw.zip raw.tail).map (fun p => p.2 - p.1)

/-! ### Bond-market-stability composite weights (`etl_runner.py` lines 304-334) -/

/-- Weight dictionary used when the term-premium sub-series is present. -/
def weightsWithTermPremium : List (String × ℚ) :=
  [("credit", 0.40), ("curve", 0.20), ("momentum", 0.15),
   ("volatility", 0.15), ("premium", 0.10)]

/-- Weight dictionary used when the term-premium sub-series is unavailable. -/
def weightsWithoutTermPremium : List (String × ℚ) :=
  [("credit", 0.44), ("curve", 0.23), ("momentum", 0.17), ("volatility", 0.16)]

/-- Sum of the values of a weight dictionary. -/
def weightSum (w : List (String × ℚ)) : ℚ :=
  (w.map Prod.snd).sum

/-! ## Claims C3, C6, C9 -/

/-- C3 counterexample: at z = 0.03 the code's `int()` truncation returns 50,
while rounding `((z + 2) / 4) * 100 = 50.75` to the nearest integer gives 51,
so `map_z_to_score` does not round to the nearest integer as claimed. -/
theorem C3_counterexample :
    map_z_to_score (3 / 100) = 50 ∧
    round ((((3 : ℚ) / 100 + 2) / 4) * 100) = 51 := by
  constructor
  · norm_num [map_z_to_score, ratTrunc]
  · norm_num [round_eq]

/-- C3 amended: `map_z_to_score` returns 0 for z ≤ −2, 100 for z ≥ 2, and
otherwise the floor (truncation, the argument being nonnegative there) of
`((z + 2) / 4) * 100`; the result always lies in 0–100. -/
theorem C3_amended (z : ℚ) :
    map_z_to_score z =
      (if z ≤ -2 then 0 else if 2 ≤ z then 100 else ⌊((z + 2) / 4) * 100⌋) ∧
    0 ≤ map_z_to_score z ∧ map_z_to_score z ≤ 100 := by
  unfold map_z_to_score ratTrunc
  by_cases h1 : z ≤ -2
  · simp [h1]
  · by_cases h2 : 2 ≤ z
    · simp [h1, h2]
    · have hz1 : -2 < z := lt_of_not_le h1
      have hz2 : z < 2 := lt_of_not_le h2
      have harg : (0 : ℚ) ≤ ((z + 2) / 4) * 100 := by nlinarith
      have harg' : ((z + 2) / 4) * 100 ≤ 100 := by nlinarith
      simp only [if_neg h1, if_neg h2, if_pos harg]
      refine ⟨trivial, Int.floor_nonneg.mpr harg, ?_⟩
      calc ⌊((z + 2) / 4) * 100⌋ ≤ ⌊(100 : ℚ)⌋ := Int.floor_le_floor harg'
        _ = 100 := by norm_num

/-- C6 counterexample: the no-term-premium weight set is (0.44, 0.23, 0.17,
0.16), which is not the proportional redistribution (each weight divided by
0.90) of the present-case set (0.40, 0.20, 0.15, 0.15). -/
theorem C6_counterexample :
    weightsWithoutTermPremium.map Prod.snd = [0.44, 0.23, 0.17, 0.16] ∧
    ([0.44, 0.23, 0.17, 0.16] : List ℚ) ≠
      [0.40 / 0.90, 0.20 / 0.90, 0.15 / 0.90, 0.15 / 0.90] := by
  constructor
  · norm_num [weightsWithoutTermPremium]
  · norm_num

/-- C6 amended: both bond-market-stability weight sets sum exactly to 1.0, but
the absent-term-premium weights are hard-coded constants (0.44, 0.23, 0.17,
0.16) rather than an exact proportional redistribution by 1/0.90 — note the
two 0.15 weights are redistributed to the unequal 0.17 and 0.16. -/
theorem C6_amended :
    weightSum weightsWithTermPremium = 1 ∧
    weightSum weightsWithoutTermPremium = 1 ∧
    weightsWithoutTermPremium.map Prod.snd ≠
      ((weightsWithTermPremium.map Prod.snd).take 4).map (fun w => w / 0.90) := by
  refine ⟨?_, ?_, ?_⟩
  · norm_num [weightSum, weightsWithTermPremium]
  · norm_num [weightSum, weightsWithoutTermPremium]
  · norm_num [weightsWithTermPremium, weightsWithoutTermPremium]

/-- C9 counterexample: on the input [1.0, 1.25, 1.25, 1.50] the DFF
rate-of-change loop produces [0.25, 0.0, 0.25] (the first point is dropped),
not the claimed [0, 0.25, 0.0, 0.25] of the same length as the input. -/
theorem C9_counterexample :
    dffRoc [1, 5/4, 5/4, 3/2] = [1/4, 0, 1/4] ∧
    ([1/4, 0, 1/4] : List ℚ) ≠ [0, 1/4, 0, 1/4] := by
  constructor
  · norm_num [dffRoc]
  · norm_num

/-- The DFF rate-of-change as a `zipWith` of consecutive points. -/
theorem dffRoc_eq_zipWith (raw : List ℚ) :
    dffRoc raw = List.zipWith (fun a b => b - a) raw raw.tail := by
  simp [dffRoc, List.zip, List.map_zipWith]

/-- C9 amended: the DFF rate-of-change drops the first input point: on
[1.0, 1.25, 1.25, 1.50] it yields [0.25, 0.0, 0.25]; in general the output is
one shorter than the input and output[i] = raw[i+1] − raw[i]. -/
theorem C9_amended :
    dffRoc [1, 5/4, 5/4, 3/2] = [1/4, 0, 1/4] ∧
    ∀ raw : List ℚ, (dffRoc raw).length = raw.length - 1 ∧
      ∀ i, i + 1 < raw.length →
        (dffRoc raw).getD i 0 = raw.getD (i + 1) 0 - raw.getD i 0 := by
  refine ⟨by norm_num [dffRoc], ?_⟩
  intro raw
  constructor
  · rw [dffRoc_eq_zipWith, List.length_zipWith, List.length_tail]
    omega
  · induction raw with
    | nil => intro i h; simp at h
    | cons a rest ih =>
      intro i h
      match rest, i with
      | [], _ => simp at h
      | b :: t, 0 => simp [dffRoc_eq_zipWith]
      | b :: t, (j + 1) =>
        have hj : j + 1 < (b :: t).length := by
          simpa using h
        have := ih j hj
        simpa [dffRoc_eq_zipWith] using this

/-- C9 witness: the amended element formula instantiated at the example input
and index 0. -/
theorem C9_witness :
    (0 : ℕ) + 1 < ([1, 5/4, 5/4, 3/2] : List ℚ).length ∧
    (dffRoc [1, 5/4, 5/4, 3/2]).getD 0 0 =
      ([1, 5/4, 5/4, 3/2] : List ℚ).getD 1 0 -
        ([1, 5/4, 5/4, 3/2] : List ℚ).getD 0 0 :=
  ⟨by norm_num, (C9_amended.2 [1, 5/4, 5/4, 3/2]).2 0 (by norm_num)⟩

/-! ### Statistical normalizer: `compute_z_scores` / `normalize_series`
(`analytics_stub.py` lines 15-45, 84-93).

numpy's `.mean()` and `.std()` (population standard deviation) are modelled
over the reals; `arr[-lookback:]` keeps the whole array when `lookback = 0`
or `lookback ≥ len(arr)`, which `trailingWindow` reproduces. -/

noncomputable def listMean (xs : List ℝ) : ℝ := xs.sum / xs.length

noncomputable def listStd (xs : List ℝ) : ℝ :=
  Real.sqrt (listMean (xs.map (fun x => (x - listMean xs) ^ 2)))

/-- Python slice `arr[-lookback:]`. -/
def trailingWindow (xs : List ℝ) (lookback : ℕ) : List ℝ :=
  if lookback = 0 then xs else xs.drop (xs.length - lookback)

open Classical in
/-- Embedding of `compute_z_scores`: full-sample statistics below 30 points,
otherwise statistics of the trailing `lookback` points applied to every
point; a zero standard deviation is replaced by 1. -/
noncomputable def compute_z_scores (values : List ℝ) (lookback : ℕ) : List ℝ :=
  if values.length < 30 then
    let mean := listMean values
    let std := if listStd values = 0 then 1 else listStd values
    values.map (fun x => (x - mean) / std)
  else
    let window := trailingWindow values lookback
    let mean := listMean window
    let std := if listStd window = 0 then 1 else listStd window
    values.map (fun x => (x - mean) / std)

/-- Embedding of `direction_adjusted`: identity for direction 1, pointwise
negation for anything else. -/
def direction_adjusted (zScores : List ℝ) (direction : ℤ) : List ℝ :=
  if direction = 1 then zScores else zScores.map (fun z => -z)

/-- Embedding of `normalize_series`: z-scores then direction adjustment. -/
noncomputable def normalize_series (raw : List ℝ) (direction : ℤ) (lookback : ℕ) :
    List ℝ :=
  direction_adjusted (compute_z_scores raw lookback) direction

/-- Spec-side reference window: the full sample below 30 points, otherwise the
trailing `lookback` points. -/
def refWindow (raw : List ℝ) (lookback : ℕ) : List ℝ :=
  if raw.length < 30 then raw else trailingWindow raw lookback

open Classical in
/-- Spec-side "standard deviation of zero is treated as 1". -/
noncomputable def stdOr1 (xs : List ℝ) : ℝ :=
  if listStd xs = 0 then 1 else listStd xs

/-- C4: `compute_z_scores` applies one single mean/std — taken over the full
sample below 30 points and over the trailing `lookback` points otherwise, with
a zero std replaced by 1 — to every point of the full sequence, and the
direction = −1 normalization is the pointwise negation of the direction = +1
normalization. -/
theorem C4_normalize (raw : List ℝ) (lookback : ℕ) :
    compute_z_scores raw lookback =
      raw.map (fun x =>
        (x - listMean (refWindow raw lookback)) / stdOr1 (refWindow raw lookback)) ∧
    normalize_series raw 1 lookback = compute_z_scores raw lookback ∧
    normalize_series raw (-1) lookback =
      (normalize_series raw 1 lookback).map (fun z => -z) := by
  refine ⟨?_, ?_, ?_⟩
  · unfold compute_z_scores refWindow stdOr1
    by_cases h : raw.length < 30 <;> simp [h]
  · simp [normalize_series, direction_adjusted]
  · simp [normalize_series, direction_adjusted]

/-! ### SPY EMA-gap transform (`etl_runner.py` lines 477-513) -/

/-- `alpha = 2 / (ema_period + 1)` with `ema_period = 50`. -/
def spyAlpha : ℚ := 2 / (50 + 1)

/-- The EMA loop `ema[i] = alpha * prices[i] + (1 - alpha) * ema[i-1]`,
carrying the previous EMA value. -/
def emaGo (alpha : ℚ) (prev : ℚ) : List ℚ → List ℚ
  | [] => []
  | p :: rest =>
    let e := alpha * p + (1 - alpha) * prev
    e :: emaGo alpha e rest

/-- The full EMA series, seeded at the first price (`ema[0] = prices[0]`). -/
def spyEmaList (prices : List ℚ) : List ℚ :=
  match prices with
  | [] => []
  | p :: rest => p :: emaGo spyAlpha p rest

/-- `gap_pct = ((prices - ema) / ema) * 100`, elementwise. -/
def spyGapPct (prices : List ℚ) : List ℚ :=
  (prices.zip (spyEmaList prices)).map (fun p => (p.1 - p.2) / p.2 * 100)

/-- The series handed to `normalize_series` in the SPY branch: the raw prices
when fewer than 50 clean points exist, the EMA-gap series otherwise. -/
def spyNormalizedInput (raw : List ℚ) : List ℚ :=
  if raw.length < 50 then raw else spyGapPct raw

theorem emaGo_length (alpha : ℚ) (prev : ℚ) (xs : List ℚ) :
    (emaGo alpha prev xs).length = xs.length := by
  induction xs generalizing prev with
  | nil => rfl
  | cons p rest ih => simp [emaGo, ih]

theorem emaGo_recurrence (alpha : ℚ) (xs : List ℚ) (p : ℚ) (i : ℕ)
    (h : i < xs.length) :
    (emaGo alpha p xs).getD i 0 =
      alpha * xs.getD i 0 + (1 - alpha) * ((p :: emaGo alpha p xs).getD i 0) := by
  induction xs generalizing p i with
  | nil => simp at h
  | cons x rest ih =>
    match i with
    | 0 => simp [emaGo]
    | j + 1 =>
      have hj : j < rest.length := by simpa using h
      simpa [emaGo] using ih (alpha * x + (1 - alpha) * p) j hj

theorem zipGap_getD (l1 l2 : List ℚ) (i : ℕ) (h1 : i < l1.length)
    (h2 : i < l2.length) :
    ((l1.zip l2).map (fun p => (p.1 - p.2) / p.2 * 100)).getD i 0 =
      (l1.getD i 0 - l2.getD i 0) / l2.getD i 0 * 100 := by
  induction l1 generalizing l2 i with
  | nil => simp at h1
  | cons a t1 ih =>
    match l2, i with
    | [], _ => simp at h2
    | b :: t2, 0 => simp
    | b :: t2, j + 1 =>
      have hj1 : j < t1.length := by simpa using h1
      have hj2 : j < t2.length := by simpa using h2
      simpa using ih t2 j hj1 hj2

/-- C10: the SPY branch skips the EMA-gap below 50 clean points and normalizes
the raw prices; with at least 50 points it normalizes the gap series, whose
EMA has the same length as the input, is seeded at the first price, satisfies
`ema[i+1] = (2/51)·price[i+1] + (49/51)·ema[i]`, and whose entries are
`(price[i] − ema[i]) / ema[i] · 100`. -/
theorem C10_spy_ema_gap (raw : List ℚ) :
    (raw.length < 50 → spyNormalizedInput raw = raw) ∧
    (50 ≤ raw.length → spyNormalizedInput raw = spyGapPct raw) ∧
    (spyEmaList raw).length = raw.length ∧
    (raw ≠ [] → (spyEmaList raw).getD 0 0 = raw.getD 0 0) ∧
    (∀ i, i + 1 < raw.length →
      (spyEmaList raw).getD (i + 1) 0 =
        2 / 51 * raw.getD (i + 1) 0 + 49 / 51 * (spyEmaList raw).getD i 0) ∧
    (∀ i, i < raw.length →
      (spyGapPct raw).getD i 0 =
        (raw.getD i 0 - (spyEmaList raw).getD i 0) /
          (spyEmaList raw).getD i 0 * 100) := by
  refine ⟨?_, ?_, ?_, ?_, ?_, ?_⟩
  · intro h; simp [spyNormalizedInput, h]
  · intro h; simp [spyNormalizedInput, Nat.not_lt.mpr h]
  · match raw with
    | [] => rfl
    | p :: rest => simp [spyEmaList, emaGo_length]
  · intro h
    match raw with
    | [] => exact absurd rfl h
    | p :: rest => simp [spyEmaList]
  · intro i h
    match raw with
    | [] => simp at h
    | p :: rest =>
      have hi : i < rest.length := by simpa using h
      have := emaGo_recurrence spyAlpha rest p i hi
      have halpha : spyAlpha = 2 / 51 := by norm_num [spyAlpha]
      have h1alpha : (1 - 2 / 51 : ℚ) = 49 / 51 := by norm_num
      simpa [spyEmaList, halpha, h1alpha] using this
  · intro i h
    have hlen : (spyEmaList raw).length = raw.length := by
      match raw with
      | [] => rfl
      | p :: rest => simp [spyEmaList, emaGo_length]
    exact zipGap_getD raw (spyEmaList raw) i h (hlen ▸ h)

/-- C10 witness: the theorem applied to a concrete 50-point price list, with
the at-least-50 hypothesis and the EMA recurrence hypothesis discharged. -/
theorem C10_witness :
    50 ≤ (List.replicate 50 (1 : ℚ)).length ∧
    spyNormalizedInput (List.replicate 50 (1 : ℚ)) =
      spyGapPct (List.replicate 50 (1 : ℚ)) ∧
    (0 : ℕ) + 1 < (List.replicate 50 (1 : ℚ)).length ∧
    (spyEmaList (List.replicate 50 (1 : ℚ))).getD 1 0 =
      2 / 51 * (List.replicate 50 (1 : ℚ)).getD 1 0 +
        49 / 51 * (spyEmaList (List.replicate 50 (1 : ℚ))).getD 0 0 :=
  ⟨by simp, (C10_spy_ema_gap (List.replicate 50 1)).2.1 (by simp),
   by simp, (C10_spy_ema_gap (List.replicate 50 1)).2.2.2.2.1 0 (by simp)⟩

/-! ### Forward-fill union alignment (`etl_runner.py` lines 375-401)

`forward_fill(data_dict, all_dates)` walks the date axis in order, remembers
the last seen value, and records an entry only once some value has been seen:
dates before a series' first observation get no entry and no default. -/

/-- The forward-fill loop, carrying `last_value`. -/
def forwardFillGo (dataDict : List (ℕ × ℚ)) : Option ℚ → List ℕ → List (ℕ × ℚ)
  | _, [] => []
  | lastValue, d :: rest =>
    match dataDict.lookup d with
    | some v => (d, v) :: forwardFillGo dataDict (some v) rest
    | none =>
      match lastValue with
      | some v => (d, v) :: forwardFillGo dataDict (some v) rest
      | none => forwardFillGo dataDict none rest

/-- Embedding of `forward_fill`: `last_value` starts as `None`. -/
def forward_fill (dataDict : List (ℕ × ℚ)) (allDates : List ℕ) : List (ℕ × ℚ) :=
  forwardFillGo dataDict none allDates

/-- Axis dates at or before `d` on which the series has an observation. -/
def obsDates (dataDict : List (ℕ × ℚ)) (dates : List ℕ) (d : ℕ) : List ℕ :=
  dates.filter (fun e => decide (e ≤ d) && (dataDict.lookup e).isSome)

/-- The series value at the most recent axis date ≤ `d` carrying an
observation, if any. -/
def lastObs (dataDict : List (ℕ × ℚ)) (dates : List ℕ) (d : ℕ) : Option ℚ :=
  (obsDates dataDict dates d).getLast?.bind (fun e => dataDict.lookup e)

/-- The behaviour the claim describes: every axis date gets a row, taking the
most recent earlier value and a caller-specified default before the first
observation. -/
def ffillClaim (dataDict : List (ℕ × ℚ)) (default : ℚ) (dates : List ℕ) :
    List (ℕ × ℚ) :=
  dates.map (fun d => (d, (lastObs dataDict dates d).getD default))

/-- The last observed value over an already-processed prefix of the axis. -/
def lastObsAll (dataDict : List (ℕ × ℚ)) (pre : List ℕ) : Option ℚ :=
  ((pre.filter (fun e => (dataDict.lookup e).isSome)).getLast?).bind
    (fun e => dataDict.lookup e)

/-- C5 counterexample: with one series observed only on date 1 and axis
[0, 1], `forward_fill` emits no row at all for date 0 — it does not fill a
caller-specified default of 0 for dates preceding the first observation, and
the output is not aligned 1:1 with the axis. -/
theorem C5_counterexample :
    forward_fill [(1, 5)] [0, 1] = [(1, 5)] ∧
    ffillClaim [(1, 5)] 0 [0, 1] = [(0, 0), (1, 5)] ∧
    forward_fill [(1, 5)] [0, 1] ≠ ffillClaim [(1, 5)] 0 [0, 1] :=
  ⟨by decide, by decide, by decide⟩

theorem lastObsAll_concat (dataDict : List (ℕ × ℚ)) (pre : List ℕ) (d : ℕ) :
    lastObsAll dataDict (pre ++ [d]) =
      match dataDict.lookup d with
      | some v => some v
      | none => lastObsAll dataDict pre := by
  unfold lastObsAll
  rw [List.filter_append]
  cases hl : dataDict.lookup d with
  | some v => simp [List.filter, hl, List.getLast?_concat]
  | none => simp [List.filter, hl]

theorem lastObs_head (dataDict : List (ℕ × ℚ)) (pre rest : List ℕ) (d : ℕ)
    (h : (pre ++ d :: rest).Pairwise (· < ·)) :
    lastObs dataDict (pre ++ d :: rest) d =
      match dataDict.lookup d with
      | some v => some v
      | none => lastObsAll dataDict pre := by
  have hsplit := List.pairwise_append.mp h
  have hpre : ∀ e ∈ pre, e < d :=
    fun e he => hsplit.2.2 e he d (List.mem_cons_self d rest)
  have hrest : ∀ e ∈ rest, d < e := (List.pairwise_cons.mp hsplit.2.1).1
  unfold lastObs obsDates
  rw [List.filter_append, List.filter_cons]
  have hfr : rest.filter
      (fun e => decide (e ≤ d) && (dataDict.lookup e).isSome) = [] := by
    apply List.filter_eq_nil_iff.mpr
    intro e he
    simp [Nat.not_le.mpr (hrest e he)]
  have hfp : pre.filter
      (fun e => decide (e ≤ d) && (dataDict.lookup e).isSome) =
      pre.filter (fun e => (dataDict.lookup e).isSome) := by
    apply List.filter_congr
    intro e he
    simp [Nat.le_of_lt (hpre e he)]
  cases hl : dataDict.lookup d with
  | some v =>
    have hd : (decide (d ≤ d) && (dataDict.lookup d).isSome) = true := by
      simp [hl]
    simp [hd, hfr, hfp, hl, List.getLast?_concat]
  | none =>
    have hd : (decide (d ≤ d) && (dataDict.lookup d).isSome) = false := by
      simp [hl]
    simp [hd, hfr, hfp, lastObsAll]

theorem ffGo_spec (dataDict : List (ℕ × ℚ)) :
    ∀ (rest pre : List ℕ), (pre ++ rest).Pairwise (· < ·) →
    forwardFillGo dataDict (lastObsAll dataDict pre) rest =
      rest.filterMap
        (fun d => (lastObs dataDict (pre ++ rest) d).map (fun v => (d, v))) := by
  intro rest
  induction rest with
  | nil => intro pre h; simp [forwardFillGo]
  | cons d rest ih =>
    intro pre h
    have hassoc : pre ++ d :: rest = (pre ++ [d]) ++ rest := by simp
    have hhead := lastObs_head dataDict pre rest d h
    have htail := ih (pre ++ [d]) (by rwa [← hassoc])
    have hconcat := lastObsAll_concat dataDict pre d
    rw [List.filterMap_cons]
    cases hl : dataDict.lookup d with
    | some v =>
      have hhead' : lastObs dataDict (pre ++ d :: rest) d = some v := by
        rw [hl] at hhead; exact hhead
      have hconcat' : lastObsAll dataDict (pre ++ [d]) = some v := by
        rw [hl] at hconcat; exact hconcat
      rw [hconcat'] at htail
      rw [hassoc] at hhead'
      simp only [forwardFillGo, hl, hassoc, hhead']
      simp [htail]
    | none =>
      have hhead' : lastObs dataDict (pre ++ d :: rest) d =
          lastObsAll dataDict pre := by
        rw [hl] at hhead; exact hhead
      have hconcat' : lastObsAll dataDict (pre ++ [d]) =
          lastObsAll dataDict pre := by
        rw [hl] at hconcat; exact hconcat
      rw [hconcat'] at htail
      cases hpre : lastObsAll dataDict pre with
      | some w =>
        rw [hpre] at htail hhead'
        rw [hassoc] at hhead'
        simp only [forwardFillGo, hl, hassoc, hhead']
        simp [htail]
      | none =>
        rw [hpre] at htail hhead'
        rw [hassoc] at hhead'
        simp only [forwardFillGo, hl, hassoc, hhead']
        simp [htail]

/-- C5 amended: on a strictly ascending axis, `forward_fill` produces, for
exactly those axis dates at or after the series' first observation, the value
of the most recent axis date ≤ d carrying an observation; earlier dates are
omitted (no default row), so the output is generally shorter than the axis. -/
theorem C5_amended (dataDict : List (ℕ × ℚ)) (dates : List ℕ)
    (h : dates.Pairwise (· < ·)) :
    forward_fill dataDict dates =
      dates.filterMap
        (fun d => (lastObs dataDict dates d).map (fun v => (d, v))) := by
  have := ffGo_spec dataDict dates [] (by simpa using h)
  simpa [forward_fill, lastObsAll] using this

/-- C5 witness: the amended theorem applied to a concrete sparse series on a
four-date axis. -/
theorem C5_witness :
    ([0, 1, 2, 3] : List ℕ).Pairwise (· < ·) ∧
    forward_fill [(1, 5), (3, 7)] [0, 1, 2, 3] =
      ([0, 1, 2, 3] : List ℕ).filterMap
        (fun d =>
          (lastObs [(1, 5), (3, 7)] [0, 1, 2, 3] d).map (fun v => (d, v))) :=
  ⟨by decide, C5_amended [(1, 5), (3, 7)] [0, 1, 2, 3] (by decide)⟩

/-! ### Persistence of observations (`etl_runner.py` lines 529-596)

`IndicatorValue` rows keyed by (indicator_id, timestamp); the scored payload
(raw/normalized/score/state) is abstracted as a type parameter, since
duplication depends only on the keys. In backfill mode each of the last
`min(backfill_days, len(clean_values))` points is stored only after a query
for an existing row with the same key (pending inserts are visible to later
checks through the session); in latest-only mode the final point is inserted
unconditionally. -/

structure ObsRow (α : Type) where
  indicator_id : ℕ
  timestamp : ℕ
  payload : α
deriving DecidableEq

/-- The existence query
`db.query(IndicatorValue).filter(indicator_id == ..., timestamp == ...)`. -/
def rowExists {α : Type} (db : List (ObsRow α)) (indId : ℕ) (ts : ℕ) : Bool :=
  db.any (fun r => r.indicator_id == indId && r.timestamp == ts)

/-- One backfill-loop iteration: insert unless the key already exists. -/
def insertChecked {α : Type} (indId : ℕ) (db : List (ObsRow α)) (p : ℕ × α) :
    List (ObsRow α) :=
  if rowExists db indId p.1 then db else db ++ [⟨indId, p.1, p.2⟩]

/-- The slice `clean_values[-num_points:]` with
`num_points = min(backfill_days, len(clean_values))`. -/
def backfillTail {α : Type} (backfillDays : ℕ) (points : List (ℕ × α)) :
    List (ℕ × α) :=
  points.drop (points.length - min backfillDays points.length)

/-- Embedding of the backfill branch (`backfill_days > 0`). -/
def storeBackfill {α : Type} (db : List (ObsRow α)) (indId : ℕ)
    (backfillDays : ℕ) (points : List (ℕ × α)) : List (ObsRow α) :=
  (backfillTail backfillDays points).foldl (insertChecked indId) db

/-- Embedding of the latest-only branch (`backfill_days = 0`): an
unconditional insert of the final point, with no existence check. -/
def storeLatest {α : Type} (db : List (ObsRow α)) (indId : ℕ) (point : ℕ × α) :
    List (ObsRow α) :=
  db ++ [⟨indId, point.1, point.2⟩]

/-- At most one stored row per (indicator, date) pair. -/
def atMostOnePerKey {α : Type} (db : List (ObsRow α)) : Prop :=
  (db.map (fun r => (r.indicator_id, r.timestamp))).Nodup

/-- C1 counterexample: running the latest-only store twice on the same data
inserts the same (indicator, date) row twice — the latest-only write performs
no existence check, so the at-most-one-row invariant fails. -/
theorem C1_counterexample :
    storeLatest (storeLatest ([] : List (ObsRow ℚ)) 1 (5, 2)) 1 (5, 2) =
      [⟨1, 5, 2⟩, ⟨1, 5, 2⟩] ∧
    ¬ atMostOnePerKey
      (storeLatest (storeLatest ([] : List (ObsRow ℚ)) 1 (5, 2)) 1 (5, 2)) := by
  constructor
  · decide
  · unfold atMostOnePerKey
    decide

theorem rowExists_mono {α : Type} (indId : ℕ) (ts : ℕ)
    (db : List (ObsRow α)) (ps : List (ℕ × α))
    (h : rowExists db indId ts = true) :
    rowExists (ps.foldl (insertChecked indId) db) indId ts = true := by
  induction ps generalizing db with
  | nil => exact h
  | cons p rest ih =>
    apply ih
    unfold insertChecked
    split
    · exact h
    · unfold rowExists at h ⊢
      simp only [List.any_append, h, Bool.true_or]

theorem foldl_covers {α : Type} (indId : ℕ) (ps : List (ℕ × α))
    (db : List (ObsRow α)) :
    ∀ p ∈ ps, rowExists (ps.foldl (insertChecked indId) db) indId p.1 = true := by
  induction ps generalizing db with
  | nil => intro p hp; simp at hp
  | cons q rest ih =>
    intro p hp
    rcases List.mem_cons.mp hp with hqp | hrest
    · subst hqp
      simp only [List.foldl_cons]
      apply rowExists_mono
      unfold insertChecked
      split
      · assumption
      · unfold rowExists
        simp
    · exact ih (insertChecked indId db q) p hrest

theorem foldl_noop {α : Type} (indId : ℕ) (ps : List (ℕ × α))
    (db : List (ObsRow α))
    (h : ∀ p ∈ ps, rowExists db indId p.1 = true) :
    ps.foldl (insertChecked indId) db = db := by
  induction ps with
  | nil => rfl
  | cons q rest ih =>
    have hq := h q (List.mem_cons_self q rest)
    simp only [List.foldl_cons, insertChecked, hq, if_pos]
    exact ih (fun p hp => h p (List.mem_cons.mpr (Or.inr hp)))

theorem foldl_invariant {α : Type} (indId : ℕ) (ps : List (ℕ × α))
    (db : List (ObsRow α)) (h : atMostOnePerKey db) :
    atMostOnePerKey (ps.foldl (insertChecked indId) db) := by
  induction ps generalizing db with
  | nil => exact h
  | cons q rest ih =>
    apply ih
    unfold insertChecked
    split
    · exact h
    · rename_i hne
      unfold atMostOnePerKey at h ⊢
      rw [List.map_append, List.nodup_append]
      refine ⟨h, by simp, ?_⟩
      intro x hx
      obtain ⟨r, hr, rfl⟩ := List.mem_map.mp hx
      simp only [List.map_cons, List.map_nil, List.mem_singleton]
      intro hx2
      unfold rowExists at hne
      simp only [Prod.mk.injEq] at hx2
      exact hne (List.any_eq_true.mpr ⟨r, hr, by simp [hx2.1, hx2.2]⟩)

/-- C1 amended: in backfill mode every write is check-then-insert, so the
at-most-one-row-per-(indicator, date) invariant is preserved and a repeated
backfill of the same points stores nothing new (idempotent); in latest-only
mode the insert is unconditional, so repetition duplicates the key (see the
counterexample). -/
theorem C1_amended {α : Type} (db : List (ObsRow α)) (indId : ℕ)
    (backfillDays : ℕ) (points : List (ℕ × α)) (h : atMostOnePerKey db) :
    atMostOnePerKey (storeBackfill db indId backfillDays points) ∧
    storeBackfill (storeBackfill db indId backfillDays points) indId
        backfillDays points = storeBackfill db indId backfillDays points := by
  constructor
  · exact foldl_invariant indId (backfillTail backfillDays points) db h
  · exact foldl_noop indId (backfillTail backfillDays points) _
      (fun p hp => foldl_covers indId (backfillTail backfillDays points) db p hp)

/-- C1 witness: the amended theorem applied to an empty store and a concrete
two-point backfill. -/
theorem C1_witness :
    atMostOnePerKey ([] : List (ObsRow ℚ)) ∧
    atMostOnePerKey (storeBackfill ([] : List (ObsRow ℚ)) 1 2 [(0, 3), (1, 4)]) ∧
    storeBackfill (storeBackfill ([] : List (ObsRow ℚ)) 1 2 [(0, 3), (1, 4)]) 1 2
        [(0, 3), (1, 4)] =
      storeBackfill ([] : List (ObsRow ℚ)) 1 2 [(0, 3), (1, 4)] := by
  have h0 : atMostOnePerKey ([] : List (ObsRow ℚ)) := by
    unfold atMostOnePerKey
    simp
  exact ⟨h0, (C1_amended [] 1 2 [(0, 3), (1, 4)] h0).1,
    (C1_amended [] 1 2 [(0, 3), (1, 4)] h0).2⟩

/-! ### Alert engine (`alert_engine.py` lines 11-56)

Time is modelled in minutes as integers (the 1-hour cooldown is 60); the two
`datetime.now()` calls inside one run are the same instant `now`. The RED
count is taken over `Indicator` rows whose `last_state` column is "RED", as
in the source query. -/

structure IndicatorRow where
  code : String
  last_state : String
deriving DecidableEq

structure AlertRow where
  timestamp : ℤ
  type : String
  message : String
  affected_indicators : List String
deriving DecidableEq

/-- `db.query(Indicator).filter(Indicator.last_state == "RED")`. -/
def redIndicators (inds : List IndicatorRow) : List IndicatorRow :=
  inds.filter (fun i => i.last_state == "RED")

/-- The cooldown query predicate: a RED_THRESHOLD alert whose timestamp is at
or after `now` minus 1 hour. -/
def isRecentRedAlert (now : ℤ) (a : AlertRow) : Bool :=
  decide (now - 60 ≤ a.timestamp) && (a.type == "RED_THRESHOLD")

/-- Embedding of `check_alert_conditions`: returns the created alert (if any)
and the resulting alert table. -/
def check_alert_conditions (inds : List IndicatorRow) (alerts : List AlertRow)
    (now : ℤ) : Option AlertRow × List AlertRow :=
  let reds := redIndicators inds
  if 2 ≤ reds.length then
    if alerts.any (isRecentRedAlert now) then (none, alerts)
    else
      let alert : AlertRow :=
        ⟨now, "RED_THRESHOLD",
         "Market instability detected: " ++ toString reds.length ++
           " indicators are RED",
         reds.map (fun i => i.code)⟩
      (some alert, alerts ++ [alert])
  else (none, alerts)

/-- C2: `check_alert_conditions` creates an alert exactly when at least 2
indicators are RED and no RED_THRESHOLD alert lies within the last hour;
otherwise it creates nothing; a created alert is a RED_THRESHOLD event at
`now` listing the RED indicator codes, and any second call within one hour of
it (`now2 ≤ now + 60`) creates nothing. -/
theorem C2_alert_cooldown (inds inds2 : List IndicatorRow)
    (alerts : List AlertRow) (now now2 : ℤ) (h2 : now2 ≤ now + 60) :
    ((check_alert_conditions inds alerts now).1.isSome = true ↔
      (2 ≤ (redIndicators inds).length ∧
        ¬ ∃ a ∈ alerts, a.type = "RED_THRESHOLD" ∧ now - 60 ≤ a.timestamp)) ∧
    ((check_alert_conditions inds alerts now).1 = none →
      (check_alert_conditions inds alerts now).2 = alerts) ∧
    (∀ a, (check_alert_conditions inds alerts now).1 = some a →
      (check_alert_conditions inds alerts now).2 = alerts ++ [a] ∧
      a.type = "RED_THRESHOLD" ∧ a.timestamp = now ∧
      a.affected_indicators = (redIndicators inds).map (fun i => i.code) ∧
      (check_alert_conditions inds2
        ((check_alert_conditions inds alerts now).2) now2).1 = none) := by
  have hrecent : alerts.any (isRecentRedAlert now) = true ↔
      ∃ a ∈ alerts, a.type = "RED_THRESHOLD" ∧ now - 60 ≤ a.timestamp := by
    rw [List.any_eq_true]
    constructor
    · rintro ⟨a, ha, hpa⟩
      unfold isRecentRedAlert at hpa
      simp only [Bool.and_eq_true, decide_eq_true_eq, beq_iff_eq] at hpa
      exact ⟨a, ha, hpa.2, hpa.1⟩
    · rintro ⟨a, ha, hty, hts⟩
      refine ⟨a, ha, ?_⟩
      unfold isRecentRedAlert
      simp [hty, hts]
  have hblock : ∀ (l : List AlertRow) (R : AlertRow), R.type = "RED_THRESHOLD" →
      now2 - 60 ≤ R.timestamp → (l ++ [R]).any (isRecentRedAlert now2) = true := by
    intro l R hty hts
    rw [List.any_append]
    have hone : isRecentRedAlert now2 R = true := by
      unfold isRecentRedAlert
      simp [hty, hts]
    simp [hone]
  unfold check_alert_conditions
  by_cases hred : 2 ≤ (redIndicators inds).length
  · by_cases hrec : alerts.any (isRecentRedAlert now) = true
    · simp only [if_pos hred, if_pos hrec]
      refine ⟨?_, ?_, ?_⟩
      · exact iff_of_false (by simp) (fun hc => hc.2 (hrecent.mp hrec))
      · exact fun _ => trivial
      · intro a ha
        simp at ha
    · simp only [if_pos hred, if_neg hrec]
      refine ⟨?_, ?_, ?_⟩
      · simp only [Option.isSome_some, true_iff]
        exact ⟨hred, fun hc => hrec (hrecent.mpr hc)⟩
      · intro hnone
        simp at hnone
      · intro a ha
        simp only [Option.some.injEq] at ha
        subst ha
        refine ⟨rfl, rfl, rfl, rfl, ?_⟩
        by_cases hred2 : 2 ≤ (redIndicators inds2).length
        · have hany := hblock alerts
            ⟨now, "RED_THRESHOLD",
             "Market instability detected: " ++
               toString (redIndicators inds).length ++ " indicators are RED",
             (redIndicators inds).map (fun i => i.code)⟩ rfl
            (show now2 - 60 ≤ now by omega)
          simp [hred2, hany]
        · simp [hred2]
  · simp only [if_neg hred]
    refine ⟨?_, ?_, ?_⟩
    · exact iff_of_false (by simp) (fun hc => hred hc.1)
    · exact fun _ => trivial
    · intro a ha
      simp at ha

/-- C2 witness: two RED indicators, an empty alert table, a first call at
minute 0 and a second call at minute 30: the second call creates nothing. -/
theorem C2_witness :
    (30 : ℤ) ≤ 0 + 60 ∧
    (check_alert_conditions [⟨"A", "RED"⟩, ⟨"B", "RED"⟩]
        ((check_alert_conditions [⟨"A", "RED"⟩, ⟨"B", "RED"⟩] [] 0).2) 30).1 =
      none := by
  refine ⟨by norm_num, ?_⟩
  have h := C2_alert_cooldown [⟨"A", "RED"⟩, ⟨"B", "RED"⟩]
    [⟨"A", "RED"⟩, ⟨"B", "RED"⟩] [] 0 30 (by norm_num)
  have ha : (check_alert_conditions [⟨"A", "RED"⟩, ⟨"B", "RED"⟩] [] 0).1 =
      some ⟨0, "RED_THRESHOLD",
        "Market instability detected: 2 indicators are RED", ["A", "B"]⟩ := by
    rfl
  exact (h.2.2 _ ha).2.2.2.2

/-! ### System status aggregation (`etl_runner.py` lines 629-683)

The query returns all `IndicatorValue` rows ordered by timestamp descending;
the loop keeps the first row seen per indicator. A new `SystemStatus` row is
appended on every invocation. -/

structure ObsV where
  indicator_id : ℕ
  timestamp : ℤ
  score : ℚ
  state : String
deriving DecidableEq

structure SystemStatusRow where
  timestamp : ℤ
  composite_score : ℚ
  state : String
  red_count : ℕ
  yellow_count : ℕ
deriving DecidableEq

/-- The reduction loop over the descending-ordered rows, carrying `seen`. -/
def latestGo (seen : List ℕ) : List ObsV → List ObsV
  | [] => []
  | v :: rest =>
    if seen.contains v.indicator_id then latestGo seen rest
    else v :: latestGo (v.indicator_id :: seen) rest

/-- First row per indicator in a timestamp-descending list. -/
def latestPerIndicator (vals : List ObsV) : List ObsV := latestGo [] vals

/-- Embedding of `update_system_status`: RED/YELLOW counts, composite mean
(50 when no data), tri-state rule, new snapshot appended. -/
def update_system_status (vals : List ObsV) (snaps : List SystemStatusRow)
    (now : ℤ) : SystemStatusRow × List SystemStatusRow :=
  let latest := latestPerIndicator vals
  let red_count := (latest.filter (fun v => v.state == "RED")).length
  let yellow_count := (latest.filter (fun v => v.state == "YELLOW")).length
  let composite : ℚ :=
    if latest.isEmpty then 50
    else (latest.map (fun v => v.score)).sum / latest.length
  let state :=
    if 2 ≤ red_count then "RED"
    else if 3 ≤ yellow_count then "YELLOW"
    else "GREEN"
  let entry : SystemStatusRow := ⟨now, composite, state, red_count, yellow_count⟩
  (entry, snaps ++ [entry])

/-- The query's `order_by(IndicatorValue.timestamp.desc())` postcondition. -/
def sortedByTimestampDesc (vals : List ObsV) : Prop :=
  vals.Pairwise (fun a b => b.timestamp ≤ a.timestamp)

theorem latestGo_mem (seen : List ℕ) (vals : List ObsV) :
    ∀ v ∈ latestGo seen vals, v ∈ vals ∧ v.indicator_id ∉ seen := by
  induction vals generalizing seen with
  | nil => intro v hv; simp [latestGo] at hv
  | cons w rest ih =>
    intro v hv
    unfold latestGo at hv
    split at hv
    · have := ih seen v hv
      exact ⟨List.mem_cons.mpr (Or.inr this.1), this.2⟩
    · rename_i hsee
      rcases List.mem_cons.mp hv with hvw | hvr
      · subst hvw
        refine ⟨List.mem_cons_self _ _, ?_⟩
        simpa using hsee
      · have := ih (w.indicator_id :: seen) v hvr
        refine ⟨List.mem_cons.mpr (Or.inr this.1), ?_⟩
        intro hc
        exact this.2 (List.mem_cons.mpr (Or.inr hc))

theorem latestGo_nodup (seen : List ℕ) (vals : List ObsV) :
    ((latestGo seen vals).map (fun v => v.indicator_id)).Nodup := by
  induction vals generalizing seen with
  | nil => simp [latestGo]
  | cons w rest ih =>
    unfold latestGo
    split
    · exact ih seen
    · simp only [List.map_cons, List.nodup_cons]
      refine ⟨?_, ih (w.indicator_id :: seen)⟩
      intro hc
      obtain ⟨v, hv, hid⟩ := List.mem_map.mp hc
      have := (latestGo_mem (w.indicator_id :: seen) rest v hv).2
      exact this (hid ▸ List.mem_cons_self _ _)

theorem latestGo_covers (seen : List ℕ) (vals : List ObsV)
    (hs : vals.Pairwise (fun a b => b.timestamp ≤ a.timestamp)) :
    ∀ w ∈ vals, w.indicator_id ∉ seen →
      ∃ v ∈ latestGo seen vals,
        v.indicator_id = w.indicator_id ∧ w.timestamp ≤ v.timestamp := by
  induction vals generalizing seen with
  | nil => intro w hw; simp at hw
  | cons u rest ih =>
    intro w hw hwseen
    have hpair := List.pairwise_cons.mp hs
    unfold latestGo
    split
    · rename_i hsee
      rcases List.mem_cons.mp hw with hwu | hwr
      · subst hwu
        exact absurd (by simpa using hsee) hwseen
      · exact ih seen hpair.2 w hwr hwseen
    · rename_i hsee
      rcases List.mem_cons.mp hw with hwu | hwr
      · subst hwu
        exact ⟨w, List.mem_cons_self _ _, rfl, le_refl _⟩
      · by_cases hid : w.indicator_id = u.indicator_id
        · exact ⟨u, List.mem_cons_self _ _, hid.symm, hpair.1 w hwr⟩
        · have hnotin : w.indicator_id ∉ u.indicator_id :: seen := by
            intro hc
            rcases List.mem_cons.mp hc with h1 | h1
            · exact hid h1
            · exact hwseen h1
          obtain ⟨v, hv, hveq, hvts⟩ :=
            ih (u.indicator_id :: seen) hpair.2 w hwr hnotin
          exact ⟨v, List.mem_cons.mpr (Or.inr hv), hveq, hvts⟩

/-- C8: on a timestamp-descending row list, the reduction keeps exactly one
row per indicator, each a maximum-timestamp row for its indicator; the
snapshot appends one row whose composite is the arithmetic mean of the kept
scores (50 with no data) and whose state is RED when ≥ 2 kept rows are RED,
else YELLOW when ≥ 3 are YELLOW, else GREEN. -/
theorem C8_system_status (vals : List ObsV) (snaps : List SystemStatusRow)
    (now : ℤ) (h : sortedByTimestampDesc vals) :
    (((latestPerIndicator vals).map (fun v => v.indicator_id)).Nodup ∧
     (∀ v ∈ latestPerIndicator vals, v ∈ vals) ∧
     (∀ w ∈ vals, ∃ v ∈ latestPerIndicator vals,
        v.indicator_id = w.indicator_id ∧ w.timestamp ≤ v.timestamp)) ∧
    (update_system_status vals snaps now).2 =
      snaps ++ [(update_system_status vals snaps now).1] ∧
    (update_system_status vals snaps now).1 =
      ⟨now,
       (if (latestPerIndicator vals).isEmpty then 50
        else ((latestPerIndicator vals).map (fun v => v.score)).sum /
          (latestPerIndicator vals).length),
       (if 2 ≤ ((latestPerIndicator vals).filter
            (fun v => v.state == "RED")).length then "RED"
        else if 3 ≤ ((latestPerIndicator vals).filter
            (fun v => v.state == "YELLOW")).length then "YELLOW"
        else "GREEN"),
       ((latestPerIndicator vals).filter (fun v => v.state == "RED")).length,
       ((latestPerIndicator vals).filter
         (fun v => v.state == "YELLOW")).length⟩ := by
  refine ⟨⟨latestGo_nodup [] vals, ?_, ?_⟩, rfl, rfl⟩
  · intro v hv
    exact (latestGo_mem [] vals v hv).1
  · intro w hw
    exact latestGo_covers [] vals h w hw (by simp)

/-- C8 witness: three rows (two indicators, indicator 1 twice) sorted by
descending timestamp; the older indicator-1 row is dropped and the system
state is RED. -/
theorem C8_witness :
    sortedByTimestampDesc
      [⟨1, 10, 20, "RED"⟩, ⟨2, 9, 30, "RED"⟩, ⟨1, 8, 40, "GREEN"⟩] ∧
    (((latestPerIndicator [⟨1, 10, 20, "RED"⟩, ⟨2, 9, 30, "RED"⟩,
        ⟨1, 8, 40, "GREEN"⟩]).map (fun v => v.indicator_id)).Nodup ∧
      latestPerIndicator [⟨1, 10, 20, "RED"⟩, ⟨2, 9, 30, "RED"⟩,
        ⟨1, 8, 40, "GREEN"⟩] = [⟨1, 10, 20, "RED"⟩, ⟨2, 9, 30, "RED"⟩]) ∧
    (update_system_status [⟨1, 10, 20, "RED"⟩, ⟨2, 9, 30, "RED"⟩,
        ⟨1, 8, 40, "GREEN"⟩] [] 7).1.state = "RED" := by
  have hs : sortedByTimestampDesc
      [⟨1, 10, 20, "RED"⟩, ⟨2, 9, 30, "RED"⟩, ⟨1, 8, 40, "GREEN"⟩] := by
    unfold sortedByTimestampDesc
    decide
  have h := C8_system_status
    [⟨1, 10, 20, "RED"⟩, ⟨2, 9, 30, "RED"⟩, ⟨1, 8, 40, "GREEN"⟩] [] 7 hs
  refine ⟨hs, ⟨h.1.1, by decide⟩, ?_⟩
  rw [h.2.2]
  decide

/-! ### Data-availability error paths in `ingest_indicator`

Embedding of the checks at `etl_runner.py` lines 112-116 (zero clean points),
165-209 (bond-market-stability overlap), 357-401 (liquidity-proxy union and
overlap) and the consumer-health alignment at lines 70-89, which performs no
minimum-count check of its own. The fetched series carry `Option` values
(missing points); a Python dict built from a series is an association list. -/

inductive IngestError where
  | noValidData
  | insufficientTotal (n : ℕ)
  | insufficientOverlap (n : ℕ)
deriving DecidableEq, Repr

/-- `{x["date"]: x["value"] for x in series if x["value"] is not None}`. -/
def seriesToDict (s : List (ℕ × Option ℚ)) : List (ℕ × ℚ) :=
  s.filterMap (fun p => p.2.map (fun v => (p.1, v)))

def dictKeys (s : List (ℕ × ℚ)) : List ℕ := s.map Prod.fst

/-- Python `sorted(set(...))`. -/
def sortedDedup (l : List ℕ) : List ℕ := List.insertionSort (· ≤ ·) l.dedup

/-- `clean_values = [x for x in series if x["value"] is not None]`. -/
def cleanValues (s : List (ℕ × Option ℚ)) : List (ℕ × ℚ) := seriesToDict s

/-- The `len(clean_values) == 0` guard for a plainly fetched series. -/
def fetchCleanResult (s : List (ℕ × Option ℚ)) :
    Except IngestError (List (ℕ × ℚ)) :=
  if (cleanValues s).length = 0 then .error .noValidData
  else .ok (cleanValues s)

/-- Consumer-health alignment: sorted intersection of the three key sets. -/
def commonDates3 (a b c : List (ℕ × ℚ)) : List ℕ :=
  sortedDedup ((dictKeys a).filter
    (fun d => (dictKeys b).contains d && (dictKeys c).contains d))

/-- Month-over-month percent change, first entry 0, guarding a zero prior. -/
def momList (xs : List ℚ) : List ℚ :=
  0 :: (xs.zip xs.tail).map
    (fun p => if p.1 ≠ 0 then (p.2 - p.1) / p.1 * 100 else 0)

/-- Consumer health: mean of (PCE growth − CPI growth) and
(PI growth − CPI growth) per aligned date. -/
def consumerHealthSeries (pceD cpiD piD : List (ℕ × ℚ)) (cd : List ℕ) :
    List ℚ :=
  let pceMom := momList (cd.map (fun d => (pceD.lookup d).getD 0))
  let cpiMom := momList (cd.map (fun d => (cpiD.lookup d).getD 0))
  let piMom := momList (cd.map (fun d => (piD.lookup d).getD 0))
  List.zipWith3 (fun p c q => ((p - c) + (q - c)) / 2) pceMom cpiMom piMom

/-- The CONSUMER_HEALTH path: fails only through the zero-clean-points guard
(its aligned series is empty exactly when no common dates exist); there is no
30-date minimum check. -/
def consumerHealthResult (pceS cpiS piS : List (ℕ × Option ℚ)) :
    Except IngestError (List ℚ) :=
  let pceD := seriesToDict pceS
  let cpiD := seriesToDict cpiS
  let piD := seriesToDict piS
  let cd := commonDates3 pceD cpiD piD
  if cd.length = 0 then .error .noValidData
  else .ok (consumerHealthSeries pceD cpiD piD cd)

/-- BOND_MARKET_STABILITY alignment: intersection of the five required key
sets (HY OAS, IG OAS, DGS10, DGS2, DGS3MO). -/
def bondCommonDates (hy ig d10 d2 d3m : List (ℕ × ℚ)) : List ℕ :=
  sortedDedup ((dictKeys hy).filter (fun d =>
    (dictKeys ig).contains d && (dictKeys d10).contains d &&
    (dictKeys d2).contains d && (dictKeys d3m).contains d))

/-- The `len(common_dates) < 30` guard of the bond composite. -/
def bondOverlapResult (hy ig d10 d2 d3m : List (ℕ × ℚ)) :
    Except IngestError (List ℕ) :=
  let cd := bondCommonDates hy ig d10 d2 d3m
  if cd.length < 30 then .error (.insufficientOverlap cd.length)
  else .ok cd

/-- LIQUIDITY_PROXY date axis: sorted union of the three key sets. -/
def liquidityAllDates (m2 fb rrp : List (ℕ × ℚ)) : List ℕ :=
  sortedDedup (dictKeys m2 ++ dictKeys fb ++ dictKeys rrp)

/-- Axis dates on which all three forward-filled series have a value. -/
def liquidityCommonDates (m2 fb rrp : List (ℕ × ℚ)) : List ℕ :=
  let ad := liquidityAllDates m2 fb rrp
  let m2f := forward_fill m2 ad
  let fbf := forward_fill fb ad
  let rrpf := forward_fill rrp ad
  ad.filter (fun d =>
    (m2f.lookup d).isSome && (fbf.lookup d).isSome && (rrpf.lookup d).isSome)

/-- The two liquidity guards: `len(all_dates) < 30` then
`len(common_dates) < 30` after forward fill. -/
def liquidityResult (m2 fb rrp : List (ℕ × ℚ)) :
    Except IngestError (List ℕ) :=
  let ad := liquidityAllDates m2 fb rrp
  if ad.length < 30 then .error (.insufficientTotal ad.length)
  else
    let cd := liquidityCommonDates m2 fb rrp
    if cd.length < 30 then .error (.insufficientOverlap cd.length)
    else .ok cd

theorem isOk_error {ε α : Type} (e : ε) :
    (Except.error e : Except ε α).isOk = false := rfl

theorem isOk_ok {ε α : Type} (a : α) :
    (Except.ok a : Except ε α).isOk = true := rfl

/-- C7 counterexample: the consumer-health composite succeeds with a single
overlapping date — far fewer than 30 — so it does not raise an
insufficient-data error whenever fewer than 30 overlapping dates exist. -/
theorem C7_counterexample :
    (commonDates3 (seriesToDict [(0, some 1)]) (seriesToDict [(0, some 1)])
      (seriesToDict [(0, some 1)])).length = 1 ∧
    (1 : ℕ) < 30 ∧
    (consumerHealthResult [(0, some 1)] [(0, some 1)] [(0, some 1)]).isOk =
      true := by
  refine ⟨by decide, by decide, by decide⟩

/-- C7 amended: the plain-fetch path raises the data-unavailable error exactly
when zero clean points remain; the bond and liquidity composites raise an
insufficient-data error exactly when fewer than 30 overlapping dates exist
(for liquidity, counting axis dates where all forward-filled series have
values); the consumer-health composite performs no 30-date check and fails
exactly when zero overlapping dates exist. -/
theorem C7_amended :
    (∀ s : List (ℕ × Option ℚ),
      fetchCleanResult s = .error .noValidData ↔ cleanValues s = []) ∧
    (∀ hy ig d10 d2 d3m : List (ℕ × ℚ),
      (bondOverlapResult hy ig d10 d2 d3m).isOk = false ↔
        (bondCommonDates hy ig d10 d2 d3m).length < 30) ∧
    (∀ m2 fb rrp : List (ℕ × ℚ),
      (liquidityResult m2 fb rrp).isOk = false ↔
        (liquidityCommonDates m2 fb rrp).length < 30) ∧
    (∀ pceS cpiS piS : List (ℕ × Option ℚ),
      (consumerHealthResult pceS cpiS piS).isOk = false ↔
        (commonDates3 (seriesToDict pceS) (seriesToDict cpiS)
          (seriesToDict piS)).length = 0) := by
  refine ⟨?_, ?_, ?_, ?_⟩
  · intro s
    unfold fetchCleanResult
    constructor
    · intro h
      by_cases hc : (cleanValues s).length = 0
      · exact List.length_eq_zero.mp hc
      · rw [if_neg hc] at h
        exact absurd h (by simp)
    · intro h
      rw [if_pos (by simp [h])]
  · intro hy ig d10 d2 d3m
    unfold bondOverlapResult
    by_cases hc : (bondCommonDates hy ig d10 d2 d3m).length < 30
    · rw [if_pos hc, isOk_error]
      exact iff_of_true rfl hc
    · rw [if_neg hc, isOk_ok]
      exact iff_of_false (by simp) hc
  · intro m2 fb rrp
    unfold liquidityResult
    have hsub : (liquidityCommonDates m2 fb rrp).length ≤
        (liquidityAllDates m2 fb rrp).length := by
      unfold liquidityCommonDates
      exact List.length_filter_le _ _
    by_cases had : (liquidityAllDates m2 fb rrp).length < 30
    · rw [if_pos had, isOk_error]
      exact iff_of_true rfl (by omega)
    · rw [if_neg had]
      by_cases hcd : (liquidityCommonDates m2 fb rrp).length < 30
      · rw [if_pos hcd, isOk_error]
        exact iff_of_true rfl hcd
      · rw [if_neg hcd, isOk_ok]
        exact iff_of_false (by simp) hcd
  · intro pceS cpiS piS
    unfold consumerHealthResult
    by_cases hc : (commonDates3 (seriesToDict pceS) (seriesToDict cpiS)
        (seriesToDict piS)).length = 0
    · rw [if_pos hc, isOk_error]
      exact iff_of_true rfl hc
    · rw [if_neg hc, isOk_ok]
      exact iff_of_false (by simp) hc
